import Mathlib

/-!
Verification of the BrowserFS `XmlHttpRequest` backend
(`src/backend/XmlHttpRequest.ts`), a read-only filesystem over a static
metadata index whose file bytes are fetched lazily over HTTP.

The embedding has two layers:

* A value-semantics model (`FS`, `statSync`, `stat`, `openSync`, `openA`,
  `readdirSync`, `readdirA`, `readFileSync`, `readFileA`, `preloadFile`,
  `FS.empty`): JavaScript's in-place mutation of the per-file `Stats`
  record is modelled by threading an explicit filesystem state, and the
  network transport is a pure oracle.  Asynchronous operations take an
  explicit callback model (which may "throw") and return the final state,
  an event log (network fetches, handle closes, and one `cbCall` event per
  invocation of the caller's callback) and the uncaught exception, if any.
* A heap-semantics model (`HFS`, `statSyncH`, `statH`) in which `Stats`
  records live in an addressed heap, so that JavaScript reference sharing
  versus cloning is observable.  Only the stat operations, whose cloning
  behaviour is under scrutiny, are modelled at this level.

Collaborator code that lives outside the backend file (the `FileIndex`
lookup, `FileFlag` accessors, `NoSyncFile.close`, `Buffer.toString`,
`copyingSlice`) is modelled from the specification's description of those
interfaces; each such definition carries a comment saying so.
-/

namespace BrowserFS

/-- POSIX-style error kinds used by the backend (`api_error.ts`). -/
inductive ErrorCode where
  | EPERM
  | ENOENT
  | EIO
  | EEXIST
  | EISDIR
  | ENOTDIR
  | EINVAL
  deriving DecidableEq, Repr

/-- An API error: an error code plus a message (the path, for the
`ApiError.XXX(path)` convenience constructors). -/
structure ApiError where
  code : ErrorCode
  message : String
  deriving DecidableEq, Repr

def ApiError.ENOENT (p : String) : ApiError := ⟨ErrorCode.ENOENT, p⟩

def ApiError.EEXIST (p : String) : ApiError := ⟨ErrorCode.EEXIST, p⟩

def ApiError.EISDIR (p : String) : ApiError := ⟨ErrorCode.EISDIR, p⟩

def ApiError.ENOTDIR (p : String) : ApiError := ⟨ErrorCode.ENOTDIR, p⟩

/-- `ApiError.FileError(code, path)`. -/
def ApiError.FileError (c : ErrorCode) (p : String) : ApiError := ⟨c, p⟩

/-- Exists-action policies of `file_flag.ts` (`ActionType`).  `CREATE_FILE`
is the remaining enum member, hit by the `default:` arm of the backend's
`switch`. -/
inductive ActionType where
  | NOP
  | THROW_EXCEPTION
  | TRUNCATE_FILE
  | CREATE_FILE
  deriving DecidableEq, Repr

/-- Modelled from the spec: Open Flags are "polymorphic over write-intent
and an exists action"; the backend only calls `isWriteable()` and
`pathExistsAction()`, so a flag is that pair. -/
structure FileFlag where
  writeable : Bool
  existsAction : ActionType
  deriving DecidableEq, Repr

def FileFlag.isWriteable (f : FileFlag) : Bool := f.writeable

def FileFlag.pathExistsAction (f : FileFlag) : ActionType := f.existsAction

/-- The per-file `Stats` record (`node_fs_stats.ts`), restricted to the
fields the backend reads or writes: `size` (negative = unknown sentinel)
and the optional materialized content `file_data`.  Bytes are `Nat`s. -/
structure Stats where
  size : Int
  file_data : Option (List Nat)
  deriving DecidableEq, Repr

/-- `Stats.clone()` copies every field into a fresh record; at the value
level that is the identity.  (The heap model below makes the fresh
allocation observable.) -/
def Stats.clone (s : Stats) : Stats := ⟨s.size, s.file_data⟩

/-- A node of the `FileIndex`: a `FileInode` owning a `Stats` record, or a
`DirInode` owning its ordered child-name listing. -/
inductive Inode where
  | file (data : Stats)
  | dir (listing : List String)
  deriving DecidableEq, Repr

/-- Modelled from the spec: `DirInode.getStats()` builds a fresh directory
`Stats` (fixed size, no content). -/
def dirStats : Stats := ⟨4096, none⟩

/-- Modelled from the spec: index lookup returns the first entry whose
path matches, or "not found". -/
def lookupInode : List (String × Inode) → String → Option Inode
  | [], _ => none
  | (q, ino) :: rest, p => if q = p then some ino else lookupInode rest p

/-- In-place mutation of the `Stats` record held by the `FileInode` at
path `p` (JavaScript writes through the reference returned by
`inode.getData()`); directory entries and other paths are untouched. -/
def updateStats : List (String × Inode) → String → Stats → List (String × Inode)
  | [], _, _ => []
  | (q, ino) :: rest, p, st =>
    if q = p then
      (q, match ino with
          | Inode.file _ => Inode.file st
          | d => d) :: rest
    else (q, ino) :: updateStats rest p st

/-- The filesystem state: the URL prefix and the metadata index. -/
structure FS where
  prefixUrl : String
  index : List (String × Inode)
  deriving DecidableEq, Repr

def FS.getInode (fs : FS) (p : String) : Option Inode := lookupInode fs.index p

def FS.setStats (fs : FS) (p : String) (st : Stats) : FS :=
  { fs with index := updateStats fs.index p st }

/-- `getXhrPath`: strip one leading separator, prepend the prefix. -/
def getXhrPath (prefixUrl : String) (filePath : String) : String :=
  prefixUrl ++ (if filePath.startsWith "/" then filePath.drop 1 else filePath)

/-- The Transport collaborator as a pure oracle: size-only retrieval and
whole-file retrieval, each either failing with an `ApiError` or
succeeding.  Both the blocking and the non-blocking wrappers in the
backend consult the same oracle, and the non-blocking transport invokes
its completion callback exactly once with this outcome. -/
structure Transport where
  fetchSize : String → Except ApiError Int
  fetchBytes : String → Except ApiError (List Nat)

/-- The Buffered File Handle (`preload_file.NoSyncFile`): path, flag,
cloned stats snapshot, and the materialized byte buffer. -/
structure NoSyncFile where
  path : String
  flags : FileFlag
  stats : Stats
  buffer : List Nat
  deriving DecidableEq, Repr

def NoSyncFile.getBuffer (f : NoSyncFile) : List Nat := f.buffer

/-- Modelled from the spec: `NoSyncFile` close "releases no real
resource" and never fails, so the close-time error slot is always empty. -/
def NoSyncFile.closeErr (_ : NoSyncFile) : Option ApiError := none

/-- `copyingSlice(buff)` returns a fresh copy of the whole buffer;
value-identical to its input. -/
def copyingSlice (b : List Nat) : List Nat := b

/-- Events observable during a call: a size-only fetch, a whole-file
fetch, a handle close, and one `cbCall` per invocation of the caller's
completion callback, carrying the delivered outcome. -/
inductive Out where
  | stats (s : Stats)
  | handle (f : NoSyncFile)
  | listing (l : List String)
  | buf (b : List Nat)
  | str (s : String)
  deriving DecidableEq, Repr

inductive Ev where
  | sizeFetch (p : String)
  | byteFetch (p : String)
  | closeCall
  | cbCall (o : Except ApiError Out)

/-- A callback model: given the delivered outcome it produces the events
its body emits and, optionally, the exception it throws. -/
def Cb (α : Type) : Type := Except ApiError α → List Ev × Option ApiError

/-- The instrumented caller callback: emits exactly one `cbCall` event per
invocation (recording the delivered outcome, embedded into `Out` by
`enc`) and then behaves as `beh` (returning normally or throwing). -/
def uCb {α : Type} (enc : α → Out) (beh : Except ApiError α → Option ApiError) : Cb α :=
  fun o => ([Ev.cbCall (o.map enc)], beh o)

/-- Number of caller-callback invocations recorded in an event log. -/
def cbCalls (evs : List Ev) : Nat :=
  evs.countP fun e => match e with
    | Ev.cbCall _ => true
    | _ => false

/-- Number of handle closes recorded in an event log. -/
def closeCalls (evs : List Ev) : Nat :=
  evs.countP fun e => match e with
    | Ev.closeCall => true
    | _ => false

/-! ### The operations, blocking forms

Each blocking operation returns its outcome (`Except` models `throw`),
the filesystem state after the call, and the fetch/close events it
performed, in order. -/

/-- The body of `empty()`'s `fileIterator`: `file.file_data = null` on a
file node's `Stats` record; directory entries are not visited. -/
def clearFileData : String × Inode → String × Inode
  | (p, Inode.file st) => (p, Inode.file { st with file_data := none })
  | other => other

/-- `empty()`: `fileIterator` sets `file_data = null` on every file
node's `Stats` record. -/
def FS.empty (fs : FS) : FS :=
  { fs with index := fs.index.map clearFileData }

/-- `preloadFile(path, buffer)`, branch for branch.  The source guards
with `isFileInode(inode)` first (the first match arm; `isFileInode(null)`
is false, so a missing path falls through to the `EISDIR` throw of the
`else` branch, the catch-all arm), and only *inside* that branch checks
`inode === null` — kept verbatim below, where it can never fire. -/
def FS.preloadFile (fs : FS) (path : String) (buffer : List Nat) : Except ApiError FS :=
  let inode := fs.getInode path
  match inode with
  | some (Inode.file _) =>
    if inode = none then
      Except.error (ApiError.ENOENT path)
    else
      -- stats.size = buffer.length; stats.file_data = buffer
      Except.ok (fs.setStats path ⟨(buffer.length : Int), some buffer⟩)
  | _ => Except.error (ApiError.EISDIR path)

/-- `statSync(path, isLstat)`.  For a file node whose size is still the
sentinel, performs a size-only fetch and writes the size into the
canonical record; returns the `Stats` (at the value level; the heap model
records that no clone is taken).  The source's trailing `EINVAL` throw is
unreachable for the two-case `Inode`. -/
def statSync (T : Transport) (fs : FS) (path : String) :
    Except ApiError Stats × FS × List Ev :=
  match fs.getInode path with
  | none => (Except.error (ApiError.ENOENT path), fs, [])
  | some (Inode.file st) =>
    if st.size < 0 then
      match T.fetchSize (getXhrPath fs.prefixUrl path) with
      | Except.error e =>
        (Except.error e, fs, [Ev.sizeFetch (getXhrPath fs.prefixUrl path)])
      | Except.ok n =>
        (Except.ok { st with size := n }, fs.setStats path { st with size := n },
         [Ev.sizeFetch (getXhrPath fs.prefixUrl path)])
    else (Except.ok st, fs, [])
  | some (Inode.dir _) => (Except.ok dirStats, fs, [])

/-- `openSync(path, flags, mode)`. -/
def openSync (T : Transport) (fs : FS) (path : String) (flags : FileFlag) :
    Except ApiError NoSyncFile × FS × List Ev :=
  if flags.isWriteable then
    (Except.error ⟨ErrorCode.EPERM, path⟩, fs, [])
  else
    match fs.getInode path with
    | none => (Except.error (ApiError.ENOENT path), fs, [])
    | some (Inode.file st) =>
      match flags.pathExistsAction with
      | ActionType.THROW_EXCEPTION => (Except.error (ApiError.EEXIST path), fs, [])
      | ActionType.TRUNCATE_FILE => (Except.error (ApiError.EEXIST path), fs, [])
      | ActionType.NOP =>
        match st.file_data with
        | some data => (Except.ok ⟨path, flags, st.clone, data⟩, fs, [])
        | none =>
          match T.fetchBytes (getXhrPath fs.prefixUrl path) with
          | Except.error e =>
            (Except.error e, fs, [Ev.byteFetch (getXhrPath fs.prefixUrl path)])
          | Except.ok buffer =>
            let st' : Stats := { st with size := (buffer.length : Int), file_data := some buffer }
            (Except.ok ⟨path, flags, st'.clone, buffer⟩, fs.setStats path st',
             [Ev.byteFetch (getXhrPath fs.prefixUrl path)])
      | ActionType.CREATE_FILE =>
        (Except.error ⟨ErrorCode.EINVAL, "Invalid FileMode object."⟩, fs, [])
    | some (Inode.dir _) => (Except.error (ApiError.EISDIR path), fs, [])

/-- `readdirSync(path)`: listing of a directory node; no state change, no
network. -/
def readdirSync (fs : FS) (path : String) : Except ApiError (List String) :=
  match fs.getInode path with
  | none => Except.error (ApiError.ENOENT path)
  | some (Inode.dir l) => Except.ok l
  | some (Inode.file _) => Except.error (ApiError.ENOTDIR path)

/-- The decoded-output type of a whole-file read: raw bytes when the
encoding is `null`, decoded text otherwise; the TS signature is `any`. -/
abbrev RFOut := Out

/-- A decoder oracle for `Buffer.toString(encoding)` (external code):
either the decoded string or the exception the decode throws. -/
def Decoder : Type := String → List Nat → Except ApiError String

/-- `readFileSync(fname, encoding, flag)`: open, take the whole buffer
(copy or decode), and close in a `finally`.  `closeSync` is the no-op
close, so it adds a close event and no error. -/
def readFileSync (T : Transport) (dec : Decoder) (fs : FS) (fname : String)
    (encoding : Option String) (flag : FileFlag) :
    Except ApiError RFOut × FS × List Ev :=
  match openSync T fs fname flag with
  | (Except.error e, fs', evs) => (Except.error e, fs', evs)
  | (Except.ok fd, fs', evs) =>
    match encoding with
    | none => (Except.ok (Out.buf (copyingSlice fd.getBuffer)), fs', evs ++ [Ev.closeCall])
    | some enc =>
      match dec enc fd.getBuffer with
      | Except.ok s => (Except.ok (Out.str s), fs', evs ++ [Ev.closeCall])
      | Except.error e => (Except.error e, fs', evs ++ [Ev.closeCall])

/-! ### The operations, non-blocking forms

Each non-blocking operation takes the caller's callback model and
returns the final state, the event log (its own fetch/close events
followed by whatever the callback emits at each invocation), and the
exception left uncaught, if any. -/

/-- `stat(path, isLstat, cb)`.  For files the delivered record is
`stats.clone()`; the size-only fetch and in-place size write happen
before the clone. -/
def statA (T : Transport) (fs : FS) (path : String) (cb : Cb Stats) :
    FS × List Ev × Option ApiError :=
  match fs.getInode path with
  | none =>
    let r := cb (Except.error (ApiError.ENOENT path))
    (fs, r.1, r.2)
  | some (Inode.file st) =>
    if st.size < 0 then
      match T.fetchSize (getXhrPath fs.prefixUrl path) with
      | Except.error e =>
        let r := cb (Except.error e)
        (fs, Ev.sizeFetch (getXhrPath fs.prefixUrl path) :: r.1, r.2)
      | Except.ok n =>
        let st' : Stats := { st with size := n }
        let r := cb (Except.ok st'.clone)
        (fs.setStats path st', Ev.sizeFetch (getXhrPath fs.prefixUrl path) :: r.1, r.2)
    else
      let r := cb (Except.ok st.clone)
      (fs, r.1, r.2)
  | some (Inode.dir _) =>
    let r := cb (Except.ok dirStats)
    (fs, r.1, r.2)

/-- `open(path, flags, mode, cb)`. -/
def openA (T : Transport) (fs : FS) (path : String) (flags : FileFlag)
    (cb : Cb NoSyncFile) : FS × List Ev × Option ApiError :=
  if flags.isWriteable then
    let r := cb (Except.error ⟨ErrorCode.EPERM, path⟩)
    (fs, r.1, r.2)
  else
    match fs.getInode path with
    | none =>
      let r := cb (Except.error (ApiError.ENOENT path))
      (fs, r.1, r.2)
    | some (Inode.file st) =>
      match flags.pathExistsAction with
      | ActionType.THROW_EXCEPTION =>
        let r := cb (Except.error (ApiError.EEXIST path))
        (fs, r.1, r.2)
      | ActionType.TRUNCATE_FILE =>
        let r := cb (Except.error (ApiError.EEXIST path))
        (fs, r.1, r.2)
      | ActionType.NOP =>
        match st.file_data with
        | some data =>
          let r := cb (Except.ok ⟨path, flags, st.clone, data⟩)
          (fs, r.1, r.2)
        | none =>
          match T.fetchBytes (getXhrPath fs.prefixUrl path) with
          | Except.error e =>
            let r := cb (Except.error e)
            (fs, Ev.byteFetch (getXhrPath fs.prefixUrl path) :: r.1, r.2)
          | Except.ok buffer =>
            let st' : Stats := { st with size := (buffer.length : Int), file_data := some buffer }
            let r := cb (Except.ok ⟨path, flags, st'.clone, buffer⟩)
            (fs.setStats path st', Ev.byteFetch (getXhrPath fs.prefixUrl path) :: r.1, r.2)
      | ActionType.CREATE_FILE =>
        let r := cb (Except.error ⟨ErrorCode.EINVAL, "Invalid FileMode object."⟩)
        (fs, r.1, r.2)
    | some (Inode.dir _) =>
      let r := cb (Except.error (ApiError.EISDIR path))
      (fs, r.1, r.2)

/-- `readdir(path, cb)`: `try { cb(null, readdirSync(path)) } catch (e)
{ cb(e) }`.  The `catch` also catches an exception thrown *by the
callback* during the success invocation, in which case the callback is
invoked a second time with that exception. -/
def readdirA (fs : FS) (path : String) (cb : Cb (List String)) :
    FS × List Ev × Option ApiError :=
  match readdirSync fs path with
  | Except.error e =>
    let r := cb (Except.error e)
    (fs, r.1, r.2)
  | Except.ok l =>
    let r := cb (Except.ok l)
    match r.2 with
    | none => (fs, r.1, none)
    | some e =>
      let r2 := cb (Except.error e)
      (fs, r.1 ++ r2.1, r2.2)

/-- The error-combining step of `readFile`'s closing wrapper:
`if (err == null) { err = err2; }` — the read-time error wins over the
close-time error. -/
def combineErr (err err2 : Option ApiError) : Option ApiError :=
  match err with
  | none => err2
  | some e => some e

/-- The closing wrapper `readFile` installs around the caller's callback:
`fd.close(function(err2) { if (err == null) err = err2; oldCb(err, arg) })`.
This computes the outcome `oldCb` is invoked with. -/
def closeWrap (fd : NoSyncFile) (r : Except ApiError RFOut) : Except ApiError RFOut :=
  match combineErr (match r with
                    | Except.error e => some e
                    | Except.ok _ => none) fd.closeErr with
  | some e => Except.error e
  | none => r

/-- `readFile(fname, encoding, flag, cb)`: open; on success wrap the
callback so that every delivery first closes the handle; then either copy
the buffer (`encoding === null`) or decode it through `tryToString`,
whose `try/catch` re-invokes the wrapped callback with any exception the
first invocation threw. -/
def readFileA (T : Transport) (dec : Decoder) (fs : FS) (fname : String)
    (encoding : Option String) (flag : FileFlag) (cb : Cb RFOut) :
    FS × List Ev × Option ApiError :=
  openA T fs fname flag fun r =>
    match r with
    | Except.error e => cb (Except.error e)
    | Except.ok fd =>
      let cb2 : Cb RFOut := fun r2 =>
        let r3 := cb (closeWrap fd r2)
        (Ev.closeCall :: r3.1, r3.2)
      match encoding with
      | none => cb2 (Except.ok (Out.buf (copyingSlice fd.getBuffer)))
      | some enc =>
        match dec enc fd.getBuffer with
        | Except.ok s =>
          let r4 := cb2 (Except.ok (Out.str s))
          match r4.2 with
          | none => (r4.1, none)
          | some e =>
            let r5 := cb2 (Except.error e)
            (r4.1 ++ r5.1, r5.2)
        | Except.error e => cb2 (Except.error e)

/-! ### Stat-record invariant -/

/-- The Stat-record invariant on one record: whenever `file_data` is
present, `size` equals the content's byte length. -/
def statOkB (st : Stats) : Bool :=
  match st.file_data with
  | some b => st.size == (b.length : Int)
  | none => true

def inodeOk : Inode → Bool
  | Inode.file st => statOkB st
  | Inode.dir _ => true

/-- The index-wide Stat-record invariant. -/
def WF (fs : FS) : Prop := ∀ pr ∈ fs.index, inodeOk pr.2 = true

instance : DecidablePred WF := fun fs =>
  inferInstanceAs (Decidable (∀ pr ∈ fs.index, inodeOk pr.2 = true))

/-! ### The spec's composition: open, read the whole buffer, close

The spec describes `readFile` as "a documented fast path equivalent to
open-then-read-entire-buffer-then-close"; this definition follows those
words, not the source: open; on success read the whole buffer (copy or
decode); close exactly once, even on a read error; combine the read-time
and close-time errors so that the earliest wins. -/
def composedReadFileSync (T : Transport) (dec : Decoder) (fs : FS) (fname : String)
    (encoding : Option String) (flag : FileFlag) :
    Except ApiError RFOut × FS × List Ev :=
  match openSync T fs fname flag with
  | (Except.error e, fs', evs) => (Except.error e, fs', evs)
  | (Except.ok fd, fs', evs) =>
    let readRes : Except ApiError RFOut :=
      match encoding with
      | none => Except.ok (Out.buf (copyingSlice fd.getBuffer))
      | some enc =>
        match dec enc fd.getBuffer with
        | Except.ok s => Except.ok (Out.str s)
        | Except.error e => Except.error e
    let readErr : Option ApiError :=
      match readRes with
      | Except.error e => some e
      | Except.ok _ => none
    let final : Except ApiError RFOut :=
      match combineErr readErr fd.closeErr with
      | some e => Except.error e
      | none => readRes
    (final, fs', evs ++ [Ev.closeCall])

/-! ### Heap-semantics model of the stat operations

JavaScript `Stats` records are heap objects reached through references;
`inode.getData()` hands out the canonical reference and `stats.clone()`
allocates a fresh object.  To make sharing observable, `Stats` cells live
in an addressed heap and the stat operations return the *address* of the
record they hand to the caller. -/

inductive HInode where
  | file (sid : Nat)
  | dir (listing : List String)
  deriving DecidableEq, Repr

/-- Heap state: the `Stats` cells, the next fresh address, and the index
whose file nodes hold addresses of their canonical `Stats` cells. -/
structure HFS where
  prefixUrl : String
  heap : List (Nat × Stats)
  nextId : Nat
  index : List (String × HInode)
  deriving DecidableEq, Repr

def lookupHeap : List (Nat × Stats) → Nat → Option Stats
  | [], _ => none
  | (m, st) :: rest, n => if m = n then some st else lookupHeap rest n

def writeHeap : List (Nat × Stats) → Nat → Stats → List (Nat × Stats)
  | [], _, _ => []
  | (m, st) :: rest, n, v =>
    if m = n then (m, v) :: rest else (m, st) :: writeHeap rest n v

def lookupHInode : List (String × HInode) → String → Option HInode
  | [], _ => none
  | (q, ino) :: rest, p => if q = p then some ino else lookupHInode rest p

/-- Allocate a fresh cell holding `st`; returns its address. -/
def HFS.alloc (h : HFS) (st : Stats) : Nat × HFS :=
  (h.nextId, { h with heap := h.heap ++ [(h.nextId, st)], nextId := h.nextId + 1 })

/-- Write through a reference: in-place update of the cell at `sid`. -/
def HFS.write (h : HFS) (sid : Nat) (st : Stats) : HFS :=
  { h with heap := writeHeap h.heap sid st }

/-- Every allocated address is below the allocation counter. -/
def heapWF (h : HFS) : Prop := ∀ pr ∈ h.heap, pr.1 < h.nextId

instance : DecidablePred heapWF := fun h =>
  inferInstanceAs (Decidable (∀ pr ∈ h.heap, pr.1 < h.nextId))

/-- `statSync` in the heap model.  For a file node it reads the canonical
cell through `inode.getData()`, possibly writes the fetched size through
that same reference, and returns *that reference* — the source has no
`.clone()` on this path.  For a directory it returns the fresh record
built by `getStats()`.  A dangling file reference (never produced by the
index builder) answers `EIO`. -/
def statSyncH (T : Transport) (h : HFS) (path : String) :
    Except ApiError Nat × HFS :=
  match lookupHInode h.index path with
  | none => (Except.error (ApiError.ENOENT path), h)
  | some (HInode.file sid) =>
    match lookupHeap h.heap sid with
    | none => (Except.error ⟨ErrorCode.EIO, path⟩, h)
    | some st =>
      if st.size < 0 then
        match T.fetchSize (getXhrPath h.prefixUrl path) with
        | Except.error e => (Except.error e, h)
        | Except.ok n => (Except.ok sid, h.write sid { st with size := n })
      else (Except.ok sid, h)
  | some (HInode.dir _) =>
    let a := h.alloc dirStats
    (Except.ok a.1, a.2)

/-- The non-blocking `stat` in the heap model, keeping only the delivered
reference and the state (the exactly-once callback discipline is settled
in the value model).  For a file node the delivered record is
`stats.clone()`: a *fresh* allocation copied from the canonical cell
after the optional in-place size write. -/
def statH (T : Transport) (h : HFS) (path : String) :
    Except ApiError Nat × HFS :=
  match lookupHInode h.index path with
  | none => (Except.error (ApiError.ENOENT path), h)
  | some (HInode.file sid) =>
    match lookupHeap h.heap sid with
    | none => (Except.error ⟨ErrorCode.EIO, path⟩, h)
    | some st =>
      if st.size < 0 then
        match T.fetchSize (getXhrPath h.prefixUrl path) with
        | Except.error e => (Except.error e, h)
        | Except.ok n =>
          let h1 := h.write sid { st with size := n }
          let a := h1.alloc (Stats.clone { st with size := n })
          (Except.ok a.1, a.2)
      else
        let a := h.alloc st.clone
        (Except.ok a.1, a.2)
  | some (HInode.dir _) =>
    let a := h.alloc dirStats
    (Except.ok a.1, a.2)

/-! ### Concrete instances used by counterexamples and witnesses -/

/-- A transport whose every fetch succeeds: size probes answer 5 and
whole-file fetches answer the five bytes of "hello". -/
def T0 : Transport := ⟨fun _ => Except.ok 5, fun _ => Except.ok [104, 101, 108, 108, 111]⟩

/-- Read-only flags (mode "r"): no write intent, exists-action `NOP`. -/
def flagR : FileFlag := ⟨false, ActionType.NOP⟩

/-- Flags with write intent. -/
def flagW : FileFlag := ⟨true, ActionType.TRUNCATE_FILE⟩

/-- A small index: a cached file `/a`, an unfetched file `/b`, and a
directory `/d` listing one child. -/
def fs0 : FS :=
  ⟨"pre/",
   [("/a", Inode.file ⟨2, some [10, 20]⟩),
    ("/b", Inode.file ⟨-1, none⟩),
    ("/d", Inode.dir ["a"])]⟩

/-- A callback behaviour that throws on every invocation. -/
def behThrow : Except ApiError (List String) → Option ApiError :=
  fun _ => some ⟨ErrorCode.EIO, "boom"⟩

/-- Heap-model instance: one file `/a` whose canonical `Stats` cell sits
at address 0 with known size and cached content. -/
def h0 : HFS :=
  ⟨"", [(0, ⟨5, some [104, 101, 108, 108, 111]⟩)], 1, [("/a", HInode.file 0)]⟩

/-! ## Helper lemmas -/

theorem Stats.clone_eq (s : Stats) : s.clone = s := rfl

theorem lookupInode_mem {idx : List (String × Inode)} {p : String} {ino : Inode}
    (h : lookupInode idx p = some ino) : (p, ino) ∈ idx := by
  induction idx with
  | nil => simp [lookupInode] at h
  | cons hd tl ih =>
    rcases hd with ⟨q, i⟩
    by_cases hq : q = p
    · subst hq
      simp [lookupInode] at h
      subst h
      exact List.mem_cons_self _ _
    · simp [lookupInode, hq] at h
      exact List.mem_cons_of_mem _ (ih h)

theorem lookupInode_updateStats_self {idx : List (String × Inode)} {p : String}
    {st0 : Stats} (st : Stats) (h : lookupInode idx p = some (Inode.file st0)) :
    lookupInode (updateStats idx p st) p = some (Inode.file st) := by
  induction idx with
  | nil => simp [lookupInode] at h
  | cons hd tl ih =>
    rcases hd with ⟨q, i⟩
    by_cases hq : q = p
    · subst hq
      simp [lookupInode] at h
      subst h
      simp [updateStats, lookupInode]
    · simp [lookupInode, hq] at h
      simp [updateStats, lookupInode, hq]
      exact ih h

theorem lookupInode_updateStats_ne {idx : List (String × Inode)} {p q : String}
    (st : Stats) (hq : q ≠ p) :
    lookupInode (updateStats idx p st) q = lookupInode idx q := by
  induction idx with
  | nil => simp [updateStats]
  | cons hd tl ih =>
    rcases hd with ⟨r, i⟩
    by_cases hr : r = p
    · subst hr
      have : r ≠ q := fun hc => hq (hc ▸ rfl)
      simp [updateStats, lookupInode, this]
    · by_cases hrq : r = q
      · subst hrq
        simp [updateStats, lookupInode, hr]
      · simp [updateStats, lookupInode, hr, hrq]
        exact ih

theorem mem_updateStats {idx : List (String × Inode)} {p : String} {st : Stats}
    {pr : String × Inode} (h : pr ∈ updateStats idx p st) :
    pr ∈ idx ∨ pr.2 = Inode.file st := by
  induction idx with
  | nil => simp [updateStats] at h
  | cons hd tl ih =>
    rcases hd with ⟨q, i⟩
    by_cases hq : q = p
    · subst hq
      simp [updateStats] at h
      rcases h with h | h
      · cases i with
        | file st0 =>
          subst h
          exact Or.inr rfl
        | dir l =>
          subst h
          exact Or.inl (List.mem_cons_self _ _)
      · exact Or.inl (List.mem_cons_of_mem _ h)
    · simp [updateStats, hq] at h
      rcases h with h | h
      · subst h
        exact Or.inl (List.mem_cons_self _ _)
      · rcases ih h with h' | h'
        · exact Or.inl (List.mem_cons_of_mem _ h')
        · exact Or.inr h'

theorem WF_getInode {fs : FS} {p : String} {st : Stats} (hwf : WF fs)
    (h : fs.getInode p = some (Inode.file st)) : statOkB st = true := by
  have hm : (p, Inode.file st) ∈ fs.index := lookupInode_mem h
  have := hwf _ hm
  simpa [inodeOk] using this

theorem WF_setStats {fs : FS} {p : String} {st : Stats} (hwf : WF fs)
    (hst : statOkB st = true) : WF (fs.setStats p st) := by
  intro pr hpr
  rcases mem_updateStats hpr with h | h
  · exact hwf _ h
  · rw [h]
    simpa [inodeOk] using hst

/-- The non-blocking `stat` runs the same algorithm as the blocking one
and delivers the blocking outcome to its callback once, at the end. -/
theorem statA_spec (T : Transport) (fs : FS) (path : String) (cb : Cb Stats) :
    statA T fs path cb =
      ((statSync T fs path).2.1,
       (statSync T fs path).2.2 ++ (cb (statSync T fs path).1).1,
       (cb (statSync T fs path).1).2) := by
  unfold statA statSync
  cases hI : fs.getInode path with
  | none => simp
  | some ino =>
    cases ino with
    | dir l => simp
    | file st =>
      by_cases hs : st.size < 0
      · simp only [hs, if_true]
        cases hF : T.fetchSize (getXhrPath fs.prefixUrl path) with
        | error e => simp
        | ok n => simp [Stats.clone_eq]
      · simp [hs, Stats.clone_eq]

/-- The non-blocking `open` runs the same algorithm as the blocking one
and delivers the blocking outcome to its callback once, at the end. -/
theorem openA_spec (T : Transport) (fs : FS) (path : String) (flags : FileFlag)
    (cb : Cb NoSyncFile) :
    openA T fs path flags cb =
      ((openSync T fs path flags).2.1,
       (openSync T fs path flags).2.2 ++ (cb (openSync T fs path flags).1).1,
       (cb (openSync T fs path flags).1).2) := by
  unfold openA openSync
  by_cases hw : flags.isWriteable
  · simp [hw]
  · simp only [hw, Bool.false_eq_true, if_false]
    cases hI : fs.getInode path with
    | none => simp
    | some ino =>
      cases ino with
      | dir l => simp
      | file st =>
        cases hA : flags.pathExistsAction with
        | THROW_EXCEPTION => simp
        | TRUNCATE_FILE => simp
        | CREATE_FILE => simp
        | NOP =>
          cases hD : st.file_data with
          | some data => simp [hD]
          | none =>
            cases hF : T.fetchBytes (getXhrPath fs.prefixUrl path) with
            | error e => simp [hD, hF]
            | ok buffer => simp [hD, hF]

theorem cbCalls_append (a b : List Ev) : cbCalls (a ++ b) = cbCalls a + cbCalls b :=
  List.countP_append _ _ _

theorem uCb_fst {α : Type} (enc : α → Out) (beh : Except ApiError α → Option ApiError)
    (o : Except ApiError α) : (uCb enc beh o).1 = [Ev.cbCall (o.map enc)] := rfl

theorem cbCalls_uCb {α : Type} (enc : α → Out) (beh : Except ApiError α → Option ApiError)
    (o : Except ApiError α) : cbCalls (uCb enc beh o).1 = 1 := rfl

/-- The blocking `stat` emits only fetch events, never a callback event. -/
theorem cbCalls_statSync_evs (T : Transport) (fs : FS) (path : String) :
    cbCalls (statSync T fs path).2.2 = 0 := by
  unfold statSync
  cases hI : fs.getInode path with
  | none => rfl
  | some ino =>
    cases ino with
    | dir l => rfl
    | file st =>
      by_cases hs : st.size < 0
      · simp only [hs, if_true]
        cases hF : T.fetchSize (getXhrPath fs.prefixUrl path) with
        | error e => rfl
        | ok n => rfl
      · simp only [hs, if_false]
        rfl

/-- The blocking `open` emits only fetch events, never a callback event. -/
theorem cbCalls_openSync_evs (T : Transport) (fs : FS) (path : String) (flags : FileFlag) :
    cbCalls (openSync T fs path flags).2.2 = 0 := by
  unfold openSync
  by_cases hw : flags.isWriteable
  · simp [hw, cbCalls]
  · simp only [hw, Bool.false_eq_true, if_false]
    cases hI : fs.getInode path with
    | none => rfl
    | some ino =>
      cases ino with
      | dir l => rfl
      | file st =>
        cases hA : flags.pathExistsAction with
        | THROW_EXCEPTION => rfl
        | TRUNCATE_FILE => rfl
        | CREATE_FILE => rfl
        | NOP =>
          cases hD : st.file_data with
          | some data => simp [hD, cbCalls]
          | none =>
            cases hF : T.fetchBytes (getXhrPath fs.prefixUrl path) with
            | error e => simp [hD, hF, cbCalls]
            | ok buffer => simp [hD, hF, cbCalls]

/-- The blocking `open` never closes a handle. -/
theorem closeCalls_openSync_evs (T : Transport) (fs : FS) (path : String) (flags : FileFlag) :
    closeCalls (openSync T fs path flags).2.2 = 0 := by
  unfold openSync
  by_cases hw : flags.isWriteable
  · simp [hw, closeCalls]
  · simp only [hw, Bool.false_eq_true, if_false]
    cases hI : fs.getInode path with
    | none => rfl
    | some ino =>
      cases ino with
      | dir l => rfl
      | file st =>
        cases hA : flags.pathExistsAction with
        | THROW_EXCEPTION => rfl
        | TRUNCATE_FILE => rfl
        | CREATE_FILE => rfl
        | NOP =>
          cases hD : st.file_data with
          | some data => simp [hD, closeCalls]
          | none =>
            cases hF : T.fetchBytes (getXhrPath fs.prefixUrl path) with
            | error e => simp [hD, hF, closeCalls]
            | ok buffer => simp [hD, hF, closeCalls]

/-- A non-throwing callback is invoked exactly once by `readdir`, with
the blocking outcome. -/
theorem readdirA_pure (fs : FS) (path : String) (enc : List String → Out) :
    readdirA fs path (uCb enc fun _ => none) =
      (fs, [Ev.cbCall ((readdirSync fs path).map enc)], none) := by
  unfold readdirA
  cases h : readdirSync fs path with
  | error e => simp [h, uCb]
  | ok l => simp [h, uCb]

/-- With a non-throwing callback, the non-blocking `readFile` runs the
blocking algorithm and delivers the blocking outcome once, after the
close. -/
theorem readFileA_pure (T : Transport) (dec : Decoder) (fs : FS) (fname : String)
    (encoding : Option String) (flag : FileFlag) :
    readFileA T dec fs fname encoding flag (uCb (fun o => o) fun _ => none) =
      ((readFileSync T dec fs fname encoding flag).2.1,
       (readFileSync T dec fs fname encoding flag).2.2 ++
         [Ev.cbCall (((readFileSync T dec fs fname encoding flag).1).map fun o => o)],
       none) := by
  unfold readFileA readFileSync
  rw [openA_spec]
  rcases hO : openSync T fs fname flag with ⟨o, fs', evs⟩
  cases o with
  | error e => simp [uCb]
  | ok fd =>
    cases encoding with
    | none => simp [uCb, closeWrap, combineErr, NoSyncFile.closeErr]
    | some enc =>
      cases hDec : dec enc fd.getBuffer with
      | error e => simp [hDec, uCb, closeWrap, combineErr, NoSyncFile.closeErr]
      | ok s => simp [hDec, uCb, closeWrap, combineErr, NoSyncFile.closeErr]

/-! Heap lemmas for the reference-semantics model. -/

theorem lookupHeap_mem {hp : List (Nat × Stats)} {n : Nat} {st : Stats}
    (h : lookupHeap hp n = some st) : (n, st) ∈ hp := by
  induction hp with
  | nil => simp [lookupHeap] at h
  | cons hd tl ih =>
    rcases hd with ⟨m, v⟩
    by_cases hm : m = n
    · subst hm
      simp [lookupHeap] at h
      subst h
      exact List.mem_cons_self _ _
    · simp [lookupHeap, hm] at h
      exact List.mem_cons_of_mem _ (ih h)

theorem lookupHeap_append_left {hp : List (Nat × Stats)} {n : Nat} {st : Stats}
    (h : lookupHeap hp n = some st) (l : List (Nat × Stats)) :
    lookupHeap (hp ++ l) n = some st := by
  induction hp with
  | nil => simp [lookupHeap] at h
  | cons hd tl ih =>
    rcases hd with ⟨m, v⟩
    by_cases hm : m = n
    · subst hm
      simp [lookupHeap] at h
      subst h
      simp [lookupHeap]
    · simp [lookupHeap, hm] at h ⊢
      exact ih h

theorem lookupHeap_append_fresh {hp : List (Nat × Stats)} {n : Nat} (st : Stats)
    (h : ∀ pr ∈ hp, pr.1 ≠ n) : lookupHeap (hp ++ [(n, st)]) n = some st := by
  induction hp with
  | nil => simp [lookupHeap]
  | cons hd tl ih =>
    rcases hd with ⟨m, v⟩
    have hm : m ≠ n := h (m, v) (List.mem_cons_self _ _)
    simp only [List.cons_append, lookupHeap, hm, if_false]
    exact ih fun pr hpr => h pr (List.mem_cons_of_mem _ hpr)

theorem lookupHeap_writeHeap_self {hp : List (Nat × Stats)} {n : Nat} {st : Stats}
    (v : Stats) (h : lookupHeap hp n = some st) :
    lookupHeap (writeHeap hp n v) n = some v := by
  induction hp with
  | nil => simp [lookupHeap] at h
  | cons hd tl ih =>
    rcases hd with ⟨m, w⟩
    by_cases hm : m = n
    · subst hm
      simp [writeHeap, lookupHeap]
    · simp [lookupHeap, hm] at h
      simp [writeHeap, lookupHeap, hm]
      exact ih h

theorem lookupHeap_writeHeap_ne (hp : List (Nat × Stats)) {a b : Nat} (v : Stats)
    (hab : a ≠ b) : lookupHeap (writeHeap hp a v) b = lookupHeap hp b := by
  induction hp with
  | nil => simp [writeHeap]
  | cons hd tl ih =>
    rcases hd with ⟨m, w⟩
    by_cases hm : m = a
    · subst hm
      simp [writeHeap, lookupHeap, hab]
    · simp [writeHeap, lookupHeap, hm]
      by_cases hmb : m = b
      · simp [hmb]
      · simp [hmb]
        exact ih

theorem mem_writeHeap_keys {hp : List (Nat × Stats)} {a : Nat} {v : Stats}
    {pr : Nat × Stats} (h : pr ∈ writeHeap hp a v) : ∃ pr' ∈ hp, pr.1 = pr'.1 := by
  induction hp with
  | nil => simp [writeHeap] at h
  | cons hd tl ih =>
    rcases hd with ⟨m, w⟩
    by_cases hm : m = a
    · subst hm
      simp [writeHeap] at h
      rcases h with h | h
      · exact ⟨(m, w), List.mem_cons_self _ _, by rw [h]⟩
      · exact ⟨pr, List.mem_cons_of_mem _ h, rfl⟩
    · simp [writeHeap, hm] at h
      rcases h with h | h
      · exact ⟨(m, w), List.mem_cons_self _ _, by rw [h]⟩
      · rcases ih h with ⟨pr', hpr', hk⟩
        exact ⟨pr', List.mem_cons_of_mem _ hpr', hk⟩

theorem lookupInode_map_clearFileData (idx : List (String × Inode)) (p : String) :
    lookupInode (idx.map clearFileData) p =
      match lookupInode idx p with
      | some (Inode.file st) => some (Inode.file { st with file_data := none })
      | o => o := by
  induction idx with
  | nil => rfl
  | cons hd tl ih =>
    rcases hd with ⟨q, ino⟩
    by_cases hq : q = p
    · subst hq
      cases ino <;> simp [clearFileData, lookupInode]
    · cases ino <;> simp [clearFileData, lookupInode, hq, ih]

/-! ## The claims -/

/-- C1: for every path and every open-flags value with write intent, both
`open` and `openSync` fail with `PermissionDenied` (`EPERM`).  The
statement quantifies over every filesystem state, so the rejection is
independent of the index (absent path, directory, anything) and of the
exists-action policy carried by the flags, and the blocking form leaves
the state unchanged and performs no fetch; the non-blocking form hands
the error straight to the callback. -/
theorem open_write_intent_eperm (T : Transport) (fs : FS) (path : String)
    (flags : FileFlag) (h : flags.isWriteable = true) :
    openSync T fs path flags = (Except.error ⟨ErrorCode.EPERM, path⟩, fs, []) ∧
    ∀ cb : Cb NoSyncFile,
      openA T fs path flags cb =
        (fs, (cb (Except.error ⟨ErrorCode.EPERM, path⟩)).1,
         (cb (Except.error ⟨ErrorCode.EPERM, path⟩)).2) := by
  constructor
  · unfold openSync
    simp [h]
  · intro cb
    unfold openA
    simp [h]

theorem open_write_intent_eperm_witness :
    flagW.isWriteable = true ∧
    openSync T0 fs0 "/a" flagW = (Except.error ⟨ErrorCode.EPERM, "/a"⟩, fs0, []) :=
  ⟨rfl, (open_write_intent_eperm T0 fs0 "/a" flagW rfl).1⟩

/-- C2: for a path resolving to a file node and non-writeable flags, both
open forms dispatch on the exists-action policy: `THROW_EXCEPTION` and
`TRUNCATE_FILE` fail with `AlreadyExists`; `NOP` is the only policy that
succeeds with a File Handle (reusing cached content, or the fetched bytes
when the transport succeeds); the remaining policy value (`CREATE_FILE`,
the `default:` arm) fails with `InvalidArgument`.  The last conjunct
transports every branch to the non-blocking form, which delivers the same
outcome to its callback. -/
theorem open_exists_action_policy (T : Transport) (fs : FS) (path : String)
    (flags : FileFlag) (st : Stats)
    (hw : flags.isWriteable = false)
    (hI : fs.getInode path = some (Inode.file st)) :
    ((flags.pathExistsAction = ActionType.THROW_EXCEPTION ∨
      flags.pathExistsAction = ActionType.TRUNCATE_FILE) →
      (openSync T fs path flags).1 = Except.error (ApiError.EEXIST path)) ∧
    (flags.pathExistsAction = ActionType.CREATE_FILE →
      (openSync T fs path flags).1 =
        Except.error ⟨ErrorCode.EINVAL, "Invalid FileMode object."⟩) ∧
    (flags.pathExistsAction = ActionType.NOP →
      (∀ d, st.file_data = some d →
        (openSync T fs path flags).1 = Except.ok ⟨path, flags, st.clone, d⟩) ∧
      (∀ b, st.file_data = none →
        T.fetchBytes (getXhrPath fs.prefixUrl path) = Except.ok b →
        (openSync T fs path flags).1 =
          Except.ok ⟨path, flags, Stats.clone ⟨(b.length : Int), some b⟩, b⟩)) ∧
    (∀ cb : Cb NoSyncFile,
      openA T fs path flags cb =
        ((openSync T fs path flags).2.1,
         (openSync T fs path flags).2.2 ++ (cb (openSync T fs path flags).1).1,
         (cb (openSync T fs path flags).1).2)) := by
  refine ⟨?_, ?_, ?_, fun cb => openA_spec T fs path flags cb⟩
  · intro hA
    rcases hA with hA | hA <;> · unfold openSync; simp [hw, hI, hA]
  · intro hA
    unfold openSync
    simp [hw, hI, hA]
  · intro hA
    constructor
    · intro d hd
      unfold openSync
      simp [hw, hI, hA, hd]
    · intro b hd hF
      unfold openSync
      simp [hw, hI, hA, hd, hF]

theorem open_exists_action_policy_witness :
    flagR.isWriteable = false ∧
    fs0.getInode "/a" = some (Inode.file ⟨2, some [10, 20]⟩) ∧
    (openSync T0 fs0 "/a" ⟨false, ActionType.TRUNCATE_FILE⟩).1 =
      Except.error (ApiError.EEXIST "/a") ∧
    (openSync T0 fs0 "/a" flagR).1 =
      Except.ok ⟨"/a", flagR, Stats.clone ⟨2, some [10, 20]⟩, [10, 20]⟩ :=
  ⟨rfl, rfl,
   (open_exists_action_policy T0 fs0 "/a" ⟨false, ActionType.TRUNCATE_FILE⟩
      ⟨2, some [10, 20]⟩ rfl rfl).1 (Or.inr rfl),
   ((open_exists_action_policy T0 fs0 "/a" flagR ⟨2, some [10, 20]⟩ rfl rfl).2.2.1
      rfl).1 [10, 20] rfl⟩

/-- C4: the claim says `preloadFile` raises `FileNotFound` for a path
absent from the index, but in the source the `inode === null` check sits
*inside* the `isFileInode(inode)` branch and `isFileInode(null)` is
false, so an absent path takes the `else` branch and raises `EISDIR` —
the `ENOENT` throw is dead code.  This theorem evaluates the model at the
failing input `"/nope"` (absent from `fs0`), and also records the
behaviours the claim gets right: a directory raises `EISDIR` and a file
succeeds with `size = buffer.length` and `content = buffer`. -/
theorem preloadFile_missing_path_eisdir :
    fs0.preloadFile "/nope" [1, 2] = Except.error (ApiError.EISDIR "/nope") ∧
    ApiError.EISDIR "/nope" ≠ ApiError.ENOENT "/nope" ∧
    fs0.preloadFile "/d" [1, 2] = Except.error (ApiError.EISDIR "/d") ∧
    fs0.preloadFile "/a" [1, 2] =
      Except.ok ⟨"pre/",
        [("/a", Inode.file ⟨2, some [1, 2]⟩),
         ("/b", Inode.file ⟨-1, none⟩),
         ("/d", Inode.dir ["a"])]⟩ := by
  refine ⟨rfl, by decide, rfl, rfl⟩

/-- C10: `empty` clears `file_data` on every file node and changes
nothing else: lookups after the call return the same node with the same
size (content cleared) for files, the unchanged listing for directories,
and "not found" exactly where before; the URL prefix is untouched. -/
theorem empty_clears_content_only (fs : FS) (p : String) :
    (FS.empty fs).prefixUrl = fs.prefixUrl ∧
    (FS.empty fs).index.length = fs.index.length ∧
    (FS.empty fs).getInode p =
      match fs.getInode p with
      | some (Inode.file st) => some (Inode.file ⟨st.size, none⟩)
      | o => o := by
  refine ⟨rfl, by simp [FS.empty], ?_⟩
  show lookupInode (fs.index.map clearFileData) p = _
  exact lookupInode_map_clearFileData fs.index p

/-- C3 counterexample: the claim says *both* stat forms return a clone,
a snapshot whose mutation never changes the canonical record.  On the
concrete heap `h0` the blocking `statSync` returns address 0 — exactly
the canonical record of `/a` — and writing through that returned
reference changes the canonical cell, so the claim is false for the
blocking form. -/
theorem statSync_returns_canonical_not_clone :
    (statSyncH T0 h0 "/a").1 = Except.ok 0 ∧
    lookupHInode h0.index "/a" = some (HInode.file 0) ∧
    lookupHeap ((h0.write 0 ⟨7, none⟩).heap) 0 ≠ lookupHeap h0.heap 0 := by
  refine ⟨rfl, rfl, by decide⟩

/-- C3 amended: only the *non-blocking* `stat` returns a clone of the
canonical record: a successful callback delivery hands out a fresh
address, distinct from the canonical one, holding equal contents, and
writing through one address never changes the cell at the other.  The
blocking `statSync` returns the canonical record's own address, so
mutating its result mutates the canonical record. -/
theorem stat_clone_semantics (T : Transport) (h : HFS) (path : String) (sid : Nat)
    (hwf : heapWF h) (hI : lookupHInode h.index path = some (HInode.file sid)) :
    (∀ r h', statSyncH T h path = (Except.ok r, h') → r = sid) ∧
    (∀ c h', statH T h path = (Except.ok c, h') →
      c ≠ sid ∧ lookupHeap h'.heap c = lookupHeap h'.heap sid) ∧
    (∀ (hp : List (Nat × Stats)) (a b : Nat) (v : Stats), a ≠ b →
      lookupHeap (writeHeap hp a v) b = lookupHeap hp b) := by
  refine ⟨?_, ?_, fun hp a b v hab => lookupHeap_writeHeap_ne hp v hab⟩
  · intro r h' heq
    simp only [statSyncH, hI] at heq
    cases hc : lookupHeap h.heap sid with
    | none =>
      simp only [hc] at heq
      simp at heq
    | some st =>
      simp only [hc] at heq
      by_cases hs : st.size < 0
      · rw [if_pos hs] at heq
        cases hF : T.fetchSize (getXhrPath h.prefixUrl path) with
        | error e =>
          simp only [hF] at heq
          simp at heq
        | ok n =>
          simp only [hF] at heq
          rw [Prod.mk.injEq, Except.ok.injEq] at heq
          exact heq.1.symm
      · rw [if_neg hs, Prod.mk.injEq, Except.ok.injEq] at heq
        exact heq.1.symm
  · intro c h' heq
    simp only [statH, hI] at heq
    cases hc : lookupHeap h.heap sid with
    | none =>
      simp only [hc] at heq
      simp at heq
    | some st =>
      have hsid : sid < h.nextId := hwf _ (lookupHeap_mem hc)
      simp only [hc] at heq
      by_cases hs : st.size < 0
      · rw [if_pos hs] at heq
        cases hF : T.fetchSize (getXhrPath h.prefixUrl path) with
        | error e =>
          simp only [hF] at heq
          simp at heq
        | ok n =>
          simp only [hF, HFS.alloc, HFS.write] at heq
          rw [Prod.mk.injEq, Except.ok.injEq] at heq
          obtain ⟨h1, h2⟩ := heq
          subst h1
          subst h2
          dsimp only
          refine ⟨fun hcon => absurd (hcon ▸ hsid) (lt_irrefl _), ?_⟩
          have hfresh :
              lookupHeap (writeHeap h.heap sid { st with size := n } ++
                [(h.nextId, Stats.clone { st with size := n })]) h.nextId =
              some (Stats.clone { st with size := n }) := by
            refine lookupHeap_append_fresh _ fun pr hpr => ?_
            rcases mem_writeHeap_keys hpr with ⟨pr', hpr', hk⟩
            have := hwf _ hpr'
            omega
          have hcanon :
              lookupHeap (writeHeap h.heap sid { st with size := n } ++
                [(h.nextId, Stats.clone { st with size := n })]) sid =
              some { st with size := n } :=
            lookupHeap_append_left (lookupHeap_writeHeap_self _ hc) _
          rw [hfresh, hcanon, Stats.clone_eq]
      · rw [if_neg hs] at heq
        simp only [HFS.alloc] at heq
        rw [Prod.mk.injEq, Except.ok.injEq] at heq
        obtain ⟨h1, h2⟩ := heq
        subst h1
        subst h2
        dsimp only
        refine ⟨fun hcon => absurd (hcon ▸ hsid) (lt_irrefl _), ?_⟩
        have hfresh :
            lookupHeap (h.heap ++ [(h.nextId, st.clone)]) h.nextId = some st.clone := by
          refine lookupHeap_append_fresh _ fun pr hpr => ?_
          have := hwf _ hpr
          omega
        have hcanon : lookupHeap (h.heap ++ [(h.nextId, st.clone)]) sid = some st :=
          lookupHeap_append_left hc _
        rw [hfresh, hcanon, Stats.clone_eq]

theorem stat_clone_semantics_witness :
    heapWF h0 ∧
    ((1 : Nat) ≠ 0 ∧
      lookupHeap (statH T0 h0 "/a").2.heap 1 = lookupHeap (statH T0 h0 "/a").2.heap 0) :=
  ⟨by decide,
   (stat_clone_semantics T0 h0 "/a" 0 (by decide) rfl).2.1 1 (statH T0 h0 "/a").2 rfl⟩

theorem closeCalls_append (a b : List Ev) : closeCalls (a ++ b) = closeCalls a + closeCalls b :=
  List.countP_append _ _ _

theorem cbCalls_closeCall : cbCalls [Ev.closeCall] = 0 := rfl

theorem closeCalls_one : closeCalls [Ev.closeCall] = 1 := rfl

theorem closeCalls_cbCall (o : Except ApiError Out) : closeCalls [Ev.cbCall o] = 0 := rfl

/-- The blocking `readFile` emits no callback events. -/
theorem cbCalls_readFileSync_evs (T : Transport) (dec : Decoder) (fs : FS)
    (fname : String) (encoding : Option String) (flag : FileFlag) :
    cbCalls (readFileSync T dec fs fname encoding flag).2.2 = 0 := by
  unfold readFileSync
  rcases hO : openSync T fs fname flag with ⟨o, fs', evs⟩
  have hevs : cbCalls evs = 0 := by
    have h := cbCalls_openSync_evs T fs fname flag
    rw [hO] at h
    exact h
  cases o with
  | error e => simpa using hevs
  | ok fd =>
    cases encoding with
    | none => simp [cbCalls_append, hevs, cbCalls_closeCall]
    | some enc =>
      cases hDec : dec enc fd.getBuffer with
      | error e => simp [hDec, cbCalls_append, hevs, cbCalls_closeCall]
      | ok s => simp [hDec, cbCalls_append, hevs, cbCalls_closeCall]

/-- The blocking `readFile` closes the handle exactly once whenever the
open succeeded, and never otherwise. -/
theorem closeCalls_readFileSync_evs (T : Transport) (dec : Decoder) (fs : FS)
    (fname : String) (encoding : Option String) (flag : FileFlag) :
    closeCalls (readFileSync T dec fs fname encoding flag).2.2 =
      match (openSync T fs fname flag).1 with
      | Except.ok _ => 1
      | Except.error _ => 0 := by
  unfold readFileSync
  rcases hO : openSync T fs fname flag with ⟨o, fs', evs⟩
  have hevs : closeCalls evs = 0 := by
    have h := closeCalls_openSync_evs T fs fname flag
    rw [hO] at h
    exact h
  cases o with
  | error e => simpa using hevs
  | ok fd =>
    cases encoding with
    | none => simp [closeCalls_append, hevs, closeCalls_one]
    | some enc =>
      cases hDec : dec enc fd.getBuffer with
      | error e => simp [hDec, closeCalls_append, hevs, closeCalls_one]
      | ok s => simp [hDec, closeCalls_append, hevs, closeCalls_one]

/-- The source's `readFileSync` coincides with the spec's composition
open-then-read-entire-buffer-then-close. -/
theorem readFileSync_eq_composed (T : Transport) (dec : Decoder) (fs : FS)
    (fname : String) (encoding : Option String) (flag : FileFlag) :
    readFileSync T dec fs fname encoding flag =
      composedReadFileSync T dec fs fname encoding flag := by
  unfold readFileSync composedReadFileSync
  rcases hO : openSync T fs fname flag with ⟨o, fs', evs⟩
  cases o with
  | error e => rfl
  | ok fd =>
    cases encoding with
    | none => simp [combineErr, NoSyncFile.closeErr]
    | some enc =>
      cases hDec : dec enc fd.getBuffer with
      | error e => simp [hDec, combineErr, NoSyncFile.closeErr]
      | ok s => simp [hDec, combineErr, NoSyncFile.closeErr]

/-- C5 counterexample: the claim promises exactly one callback
invocation "including when the callback itself throws during its
invocation", but `readdir` wraps the success delivery in the same
`try/catch` that guards `readdirSync`, so a callback that throws while
handling the successful listing of `/d` is invoked a *second* time with
the thrown error: two invocations, not one. -/
theorem readdir_throwing_callback_double_invocation :
    cbCalls (readdirA fs0 "/d" (uCb Out.listing behThrow)).2.1 = 2 ∧ (2 : Nat) ≠ 1 := by
  exact ⟨rfl, by decide⟩

/-- C5 amended: each non-blocking operation invokes the caller's callback
exactly once with either an error or a result — unconditionally for
`stat` and `open` (even a throwing callback only propagates the
exception), and for `readdir` and `readFile` provided the callback does
not throw; a callback that throws during a successful `readdir` (or
encoded `readFile`) delivery is invoked a second time with the thrown
error. -/
theorem callback_invoked_exactly_once :
    (∀ (T : Transport) (fs : FS) (path : String) (enc : Stats → Out)
       (beh : Except ApiError Stats → Option ApiError),
       cbCalls (statA T fs path (uCb enc beh)).2.1 = 1) ∧
    (∀ (T : Transport) (fs : FS) (path : String) (flags : FileFlag)
       (enc : NoSyncFile → Out)
       (beh : Except ApiError NoSyncFile → Option ApiError),
       cbCalls (openA T fs path flags (uCb enc beh)).2.1 = 1) ∧
    (∀ (fs : FS) (path : String) (enc : List String → Out),
       cbCalls (readdirA fs path (uCb enc fun _ => none)).2.1 = 1) ∧
    (∀ (T : Transport) (dec : Decoder) (fs : FS) (fname : String)
       (encoding : Option String) (flag : FileFlag),
       cbCalls
         (readFileA T dec fs fname encoding flag (uCb (fun o => o) fun _ => none)).2.1 =
         1) := by
  refine ⟨?_, ?_, ?_, ?_⟩
  · intro T fs path enc beh
    rw [statA_spec]
    simp only [cbCalls_append, cbCalls_statSync_evs, cbCalls_uCb]
  · intro T fs path flags enc beh
    rw [openA_spec]
    simp only [cbCalls_append, cbCalls_openSync_evs, cbCalls_uCb]
  · intro fs path enc
    rw [readdirA_pure]
    rfl
  · intro T dec fs fname encoding flag
    rw [readFileA_pure]
    simp only [cbCalls_append, cbCalls_readFileSync_evs]
    rfl

/-- C6: for each operation offered in both modes, the non-blocking form
run with a non-throwing callback reaches the same final state as the
blocking form, performs the same fetch/close events, throws nothing, and
delivers exactly the blocking outcome (same error on failure; same
stats, same handle bytes, same listing, same decoded or raw content on
success) to its callback. -/
theorem sync_async_equivalence :
    (∀ (T : Transport) (fs : FS) (path : String),
      statA T fs path (uCb Out.stats fun _ => none) =
        ((statSync T fs path).2.1,
         (statSync T fs path).2.2 ++
           [Ev.cbCall ((statSync T fs path).1.map Out.stats)],
         none)) ∧
    (∀ (T : Transport) (fs : FS) (path : String) (flags : FileFlag),
      openA T fs path flags (uCb Out.handle fun _ => none) =
        ((openSync T fs path flags).2.1,
         (openSync T fs path flags).2.2 ++
           [Ev.cbCall ((openSync T fs path flags).1.map Out.handle)],
         none)) ∧
    (∀ (fs : FS) (path : String),
      readdirA fs path (uCb Out.listing fun _ => none) =
        (fs, [Ev.cbCall ((readdirSync fs path).map Out.listing)], none)) ∧
    (∀ (T : Transport) (dec : Decoder) (fs : FS) (fname : String)
       (encoding : Option String) (flag : FileFlag),
      readFileA T dec fs fname encoding flag (uCb (fun o => o) fun _ => none) =
        ((readFileSync T dec fs fname encoding flag).2.1,
         (readFileSync T dec fs fname encoding flag).2.2 ++
           [Ev.cbCall ((readFileSync T dec fs fname encoding flag).1.map fun o => o)],
         none)) := by
  refine ⟨?_, ?_, fun fs path => readdirA_pure fs path Out.listing, readFileA_pure⟩
  · intro T fs path
    rw [statA_spec]
    rfl
  · intro T fs path flags
    rw [openA_spec]
    rfl

/-- C7: `readFile` is the composition open / read-whole-buffer / close:
the blocking form equals the spec's composition outright; the
non-blocking form delivers the composition's outcome; whenever a handle
was obtained the handle is closed exactly once, even on a decode error,
and never when open failed; and the closing wrapper's error combinator
reports the earliest error — a read-time error wins over a close-time
error, and a close-time error is reported exactly when no read-time
error preceded it. -/
theorem readFile_equals_open_read_close :
    (∀ (T : Transport) (dec : Decoder) (fs : FS) (fname : String)
       (encoding : Option String) (flag : FileFlag),
       readFileSync T dec fs fname encoding flag =
         composedReadFileSync T dec fs fname encoding flag) ∧
    (∀ (T : Transport) (dec : Decoder) (fs : FS) (fname : String)
       (encoding : Option String) (flag : FileFlag),
       readFileA T dec fs fname encoding flag (uCb (fun o => o) fun _ => none) =
         ((composedReadFileSync T dec fs fname encoding flag).2.1,
          (composedReadFileSync T dec fs fname encoding flag).2.2 ++
            [Ev.cbCall
              ((composedReadFileSync T dec fs fname encoding flag).1.map fun o => o)],
          none)) ∧
    (∀ (T : Transport) (dec : Decoder) (fs : FS) (fname : String)
       (encoding : Option String) (flag : FileFlag),
       closeCalls (readFileSync T dec fs fname encoding flag).2.2 =
         match (openSync T fs fname flag).1 with
         | Except.ok _ => 1
         | Except.error _ => 0) ∧
    (∀ (T : Transport) (dec : Decoder) (fs : FS) (fname : String)
       (encoding : Option String) (flag : FileFlag),
       closeCalls
         (readFileA T dec fs fname encoding flag (uCb (fun o => o) fun _ => none)).2.1 =
         match (openSync T fs fname flag).1 with
         | Except.ok _ => 1
         | Except.error _ => 0) ∧
    (∀ (e1 : ApiError) (e2 : Option ApiError), combineErr (some e1) e2 = some e1) ∧
    (∀ e2 : Option ApiError, combineErr none e2 = e2) := by
  refine ⟨readFileSync_eq_composed, ?_, closeCalls_readFileSync_evs, ?_,
    fun e1 e2 => rfl, fun e2 => rfl⟩
  · intro T dec fs fname encoding flag
    rw [readFileA_pure, readFileSync_eq_composed]
  · intro T dec fs fname encoding flag
    rw [readFileA_pure]
    simp only [closeCalls_append, closeCalls_readFileSync_evs, closeCalls_cbCall,
      Nat.add_zero]

/-- C8: starting from a well-formed index (content present implies size
equals content length), every operation leaves the index well-formed: the
two open paths set `size = buffer.length` in the same step that sets
`file_data`, `preloadFile` establishes the invariant directly, the stat
size write touches only records without content, and `empty` only clears
content. -/
theorem operations_preserve_stat_invariant (fs : FS) (hwf : WF fs) :
    WF (FS.empty fs) ∧
    (∀ p b fs', fs.preloadFile p b = Except.ok fs' → WF fs') ∧
    (∀ (T : Transport) (p : String), WF (statSync T fs p).2.1) ∧
    (∀ (T : Transport) (p : String) (cb : Cb Stats), WF (statA T fs p cb).1) ∧
    (∀ (T : Transport) (p : String) (fl : FileFlag), WF (openSync T fs p fl).2.1) ∧
    (∀ (T : Transport) (p : String) (fl : FileFlag) (cb : Cb NoSyncFile),
      WF (openA T fs p fl cb).1) ∧
    (∀ (T : Transport) (dec : Decoder) (f : String) (e : Option String) (fl : FileFlag),
      WF (readFileSync T dec fs f e fl).2.1) ∧
    (∀ (T : Transport) (dec : Decoder) (f : String) (e : Option String) (fl : FileFlag)
       (cb : Cb RFOut), WF (readFileA T dec fs f e fl cb).1) ∧
    (∀ (p : String) (cb : Cb (List String)), WF (readdirA fs p cb).1) := by
  have hstat : ∀ (T : Transport) (p : String), WF (statSync T fs p).2.1 := by
    intro T p
    unfold statSync
    cases hI : fs.getInode p with
    | none => exact hwf
    | some ino =>
      cases ino with
      | dir l => exact hwf
      | file st =>
        dsimp only
        by_cases hs : st.size < 0
        · rw [if_pos hs]
          cases hF : T.fetchSize (getXhrPath fs.prefixUrl p) with
          | error e => exact hwf
          | ok n =>
            dsimp only
            refine WF_setStats hwf ?_
            have hok := WF_getInode hwf hI
            cases hd : st.file_data with
            | none => simp [statOkB, hd]
            | some b =>
              simp only [statOkB, hd, beq_iff_eq] at hok
              omega
        · rw [if_neg hs]
          exact hwf
  have hopen : ∀ (T : Transport) (p : String) (fl : FileFlag),
      WF (openSync T fs p fl).2.1 := by
    intro T p fl
    unfold openSync
    by_cases hw : fl.isWriteable
    · simp only [hw, if_true]
      exact hwf
    · simp only [hw, Bool.false_eq_true, if_false]
      cases hI : fs.getInode p with
      | none => exact hwf
      | some ino =>
        cases ino with
        | dir l => exact hwf
        | file st =>
          dsimp only
          cases hA : fl.pathExistsAction with
          | THROW_EXCEPTION => exact hwf
          | TRUNCATE_FILE => exact hwf
          | CREATE_FILE => exact hwf
          | NOP =>
            dsimp only
            cases hd : st.file_data with
            | some data => exact hwf
            | none =>
              dsimp only
              cases hF : T.fetchBytes (getXhrPath fs.prefixUrl p) with
              | error e => exact hwf
              | ok buffer =>
                dsimp only
                refine WF_setStats hwf ?_
                simp [statOkB]
  refine ⟨?_, ?_, hstat, ?_, hopen, ?_, ?_, ?_, ?_⟩
  · intro pr hpr
    rw [FS.empty] at hpr
    simp only [List.mem_map] at hpr
    obtain ⟨pr0, hpr0, rfl⟩ := hpr
    rcases pr0 with ⟨q, ino⟩
    cases ino with
    | file st => simp [clearFileData, inodeOk, statOkB]
    | dir l => simp [clearFileData, inodeOk]
  · intro p b fs' heq
    unfold FS.preloadFile at heq
    cases hI : fs.getInode p with
    | none =>
      rw [hI] at heq
      cases heq
    | some ino =>
      cases ino with
      | dir l =>
        rw [hI] at heq
        cases heq
      | file st =>
        rw [hI] at heq
        simp at heq
        subst heq
        refine WF_setStats hwf ?_
        simp [statOkB]
  · intro T p cb
    rw [statA_spec]
    exact hstat T p
  · intro T p fl cb
    rw [openA_spec]
    exact hopen T p fl
  · intro T dec f e fl
    have h := hopen T f fl
    unfold readFileSync
    rcases hO : openSync T fs f fl with ⟨o, fs', evs⟩
    rw [hO] at h
    cases o with
    | error e2 => exact h
    | ok fd =>
      dsimp only
      cases e with
      | none => exact h
      | some enc =>
        dsimp only
        cases hDec : dec enc fd.getBuffer with
        | error e2 => exact h
        | ok s => exact h
  · intro T dec f e fl cb
    unfold readFileA
    rw [openA_spec]
    exact hopen T f fl
  · intro p cb
    unfold readdirA
    cases h : readdirSync fs p with
    | error e => exact hwf
    | ok l =>
      dsimp only
      cases hb : (cb (Except.ok l)).2 with
      | none => exact hwf
      | some e2 => exact hwf

theorem operations_preserve_stat_invariant_witness :
    WF fs0 ∧ WF (FS.empty fs0) :=
  ⟨by decide, (operations_preserve_stat_invariant fs0 (by decide)).1⟩

/-- C9: once an open with exists-action `NOP` has succeeded, the
canonical record of that path holds exactly the returned handle's bytes,
and a second open — in either mode — takes the cached branch: it performs
no fetch (empty event log on the blocking side, only the callback's
events on the non-blocking side), leaves the state untouched, and returns
a handle with byte-identical content. -/
theorem second_open_reuses_content (T : Transport) (fs : FS) (path : String)
    (flags : FileFlag) (fd1 : NoSyncFile) (fs1 : FS) (evs1 : List Ev)
    (hw : flags.isWriteable = false) (hn : flags.pathExistsAction = ActionType.NOP)
    (h1 : openSync T fs path flags = (Except.ok fd1, fs1, evs1)) :
    ∃ st1 : Stats,
      fs1.getInode path = some (Inode.file st1) ∧
      st1.file_data = some fd1.buffer ∧
      openSync T fs1 path flags =
        (Except.ok ⟨path, flags, st1.clone, fd1.buffer⟩, fs1, []) ∧
      ∀ cb : Cb NoSyncFile,
        openA T fs1 path flags cb =
          (fs1, (cb (Except.ok ⟨path, flags, st1.clone, fd1.buffer⟩)).1,
           (cb (Except.ok ⟨path, flags, st1.clone, fd1.buffer⟩)).2) := by
  unfold openSync at h1
  rw [if_neg (by simp [hw])] at h1
  cases hI : fs.getInode path with
  | none =>
    rw [hI] at h1
    cases h1
  | some ino =>
    cases ino with
    | dir l =>
      rw [hI] at h1
      cases h1
    | file st =>
      rw [hI] at h1
      dsimp only at h1
      rw [hn] at h1
      cases hd : st.file_data with
      | some d =>
        rw [hd] at h1
        simp only [Prod.mk.injEq, Except.ok.injEq] at h1
        obtain ⟨hfd, hfs, hevs⟩ := h1
        subst hfd
        subst hfs
        refine ⟨st, hI, hd, ?_, ?_⟩
        · unfold openSync
          simp [hw, hI, hn, hd]
        · intro cb
          unfold openA
          simp [hw, hI, hn, hd]
      | none =>
        rw [hd] at h1
        cases hF : T.fetchBytes (getXhrPath fs.prefixUrl path) with
        | error e =>
          rw [hF] at h1
          cases h1
        | ok buffer =>
          rw [hF] at h1
          dsimp only at h1
          simp only [Prod.mk.injEq, Except.ok.injEq] at h1
          obtain ⟨hfd, hfs, hevs⟩ := h1
          subst hfd
          subst hfs
          have hI1 : (fs.setStats path
              { st with size := (buffer.length : Int), file_data := some buffer }).getInode
                path =
              some (Inode.file
                { st with size := (buffer.length : Int), file_data := some buffer }) :=
            lookupInode_updateStats_self _ hI
          refine ⟨{ st with size := (buffer.length : Int), file_data := some buffer },
            hI1, rfl, ?_, ?_⟩
          · unfold openSync
            simp [hw, hI1, hn]
          · intro cb
            unfold openA
            simp [hw, hI1, hn]

theorem second_open_reuses_content_witness :
    (flagR.isWriteable = false ∧ flagR.pathExistsAction = ActionType.NOP ∧
      openSync T0 fs0 "/a" flagR =
        (Except.ok ⟨"/a", flagR, Stats.clone ⟨2, some [10, 20]⟩, [10, 20]⟩, fs0, [])) ∧
    ∃ st1 : Stats,
      fs0.getInode "/a" = some (Inode.file st1) ∧
      st1.file_data =
        some (NoSyncFile.buffer ⟨"/a", flagR, Stats.clone ⟨2, some [10, 20]⟩, [10, 20]⟩) ∧
      openSync T0 fs0 "/a" flagR =
        (Except.ok
          ⟨"/a", flagR, st1.clone,
           NoSyncFile.buffer ⟨"/a", flagR, Stats.clone ⟨2, some [10, 20]⟩, [10, 20]⟩⟩,
         fs0, []) ∧
      ∀ cb : Cb NoSyncFile,
        openA T0 fs0 "/a" flagR cb =
          (fs0,
           (cb (Except.ok
             ⟨"/a", flagR, st1.clone,
              NoSyncFile.buffer ⟨"/a", flagR, Stats.clone ⟨2, some [10, 20]⟩, [10, 20]⟩⟩)).1,
           (cb (Except.ok
             ⟨"/a", flagR, st1.clone,
              NoSyncFile.buffer ⟨"/a", flagR, Stats.clone ⟨2, some [10, 20]⟩, [10, 20]⟩⟩)).2) :=
  ⟨⟨rfl, rfl, rfl⟩,
   second_open_reuses_content T0 fs0 "/a" flagR
     ⟨"/a", flagR, Stats.clone ⟨2, some [10, 20]⟩, [10, 20]⟩ fs0 [] rfl rfl rfl⟩

end BrowserFS
